import Mathlib

/-!
Verification of the commit-data validation and chart-configuration core of the
RepoViz repository (src/schemas.py and src/enhanced_plot_scripts.py).

Python strings are modelled over their character lists (`String.data`); the
string helpers below reproduce the CPython behaviour of `str.strip`,
`str.split`, `int(s)`, `int(s, 16)`, `str.lower` and single-character
`str.replace` on ASCII input, which covers every input the verified claims
quantify over.
-/

deriving instance DecidableEq for Except

namespace RepoViz

/-- The ASCII whitespace characters recognised by CPython `str.strip()` /
`str.split()` (the unicode extras are irrelevant to the verified inputs). -/
def pyIsSpace (c : Char) : Bool :=
  c = ' ' || c = '\t' || c = '\n' || c = '\x0d' || c = '\x0b' || c = '\x0c'

/-- `str.strip()` on a character list: drop whitespace from both ends. -/
def stripList (l : List Char) : List Char :=
  ((l.dropWhile pyIsSpace).reverse.dropWhile pyIsSpace).reverse

/-- `line.strip()` from the source. -/
def pystrip (s : String) : String :=
  String.mk (stripList s.data)

/-- Accumulator-based worker for `str.split()`: `cur` holds the (reversed)
characters of the word currently being read. -/
def splitAux : List Char → List Char → List String
  | [], cur => if cur.isEmpty then [] else [String.mk cur.reverse]
  | c :: cs, cur =>
    if pyIsSpace c then
      if cur.isEmpty then splitAux cs [] else String.mk cur.reverse :: splitAux cs []
    else splitAux cs (c :: cur)

/-- `line.split()` from the source: split on runs of whitespace, no empties. -/
def pysplit (s : String) : List String :=
  splitAux s.data []

/-- Worker for the Python substring test `needle in hay`. -/
def subAux (ns : List Char) : List Char → Bool
  | [] => ns.isEmpty
  | h :: t => if ns.isPrefixOf (h :: t) then true else subAux ns t

/-- The Python substring test `needle in hay` used on file paths. -/
def strContains (hay needle : String) : Bool :=
  subAux needle.data hay.data

/-- Numeric value of a decimal digit character. -/
def digitVal (c : Char) : Nat := c.toNat - 48

/-- Digit tail of a CPython decimal literal: digits with single underscores
allowed only between digits (so no trailing, doubled, or leading underscore). -/
def decDigitsAux : Nat → List Char → Option Nat
  | acc, [] => some acc
  | _, ['_'] => none
  | acc, '_' :: c2 :: rest2 =>
    if c2.isDigit then decDigitsAux (acc * 10 + digitVal c2) rest2 else none
  | acc, c :: rest =>
    if c.isDigit then decDigitsAux (acc * 10 + digitVal c) rest else none

/-- A nonempty CPython digit run: must start with a digit. -/
def parseDecDigits : List Char → Option Nat
  | [] => none
  | c :: rest => if c.isDigit then decDigitsAux (digitVal c) rest else none

/-- CPython `int(s)` on a whitespace-free token (the validator only applies it
to `str.split()` output, which contains no whitespace): optional sign followed
by decimal digits with optional single underscores between digits. -/
def pyint (s : String) : Option Int :=
  match s.data with
  | '+' :: rest => (parseDecDigits rest).map (fun n => (n : Int))
  | '-' :: rest => (parseDecDigits rest).map (fun n => -(n : Int))
  | rest => (parseDecDigits rest).map (fun n => (n : Int))

/-- Hexadecimal digit test for CPython `int(-, 16)`. -/
def isHexDigitChar (c : Char) : Bool :=
  c.isDigit || ('a' ≤ c && c ≤ 'f') || ('A' ≤ c && c ≤ 'F')

/-- Digit tail of a CPython base-16 literal (underscores between digits). -/
def hexDigitsAux : List Char → Bool
  | [] => true
  | ['_'] => false
  | '_' :: c2 :: rest2 => isHexDigitChar c2 && hexDigitsAux rest2
  | c :: rest => isHexDigitChar c && hexDigitsAux rest

/-- A nonempty base-16 digit run: must start with a hex digit. -/
def hexBody : List Char → Bool
  | [] => false
  | c :: rest => isHexDigitChar c && hexDigitsAux rest

/-- Drop one leading sign character, if present (CPython `int` literals). -/
def stripSign (cs : List Char) : List Char :=
  match cs with
  | c :: r => if c = '+' || c = '-' then r else c :: r
  | [] => []

/-- Accept an optional `0x`/`0X` prefix (itself optionally followed by one
underscore) and then a hex digit run with single underscores between digits
(CPython base-16 literals). -/
def afterBasePrefix (cs : List Char) : Bool :=
  match cs with
  | c0 :: c1 :: r =>
    if c0 = '0' && (c1 = 'x' || c1 = 'X') then
      match r with
      | c2 :: r2 => if c2 = '_' then hexBody r2 else hexBody (c2 :: r2)
      | [] => false
    else hexBody (c0 :: c1 :: r)
  | cs3 => hexBody cs3

/-- Whether CPython `int(s, 16)` succeeds: surrounding whitespace, an optional
sign, an optional `0x`/`0X` prefix, then hex digits with single underscores
between digits. -/
def pyIntBase16Ok (s : List Char) : Bool :=
  afterBasePrefix (stripSign (stripList s))

/-- `str.lower()` on an ASCII character (the character built in the uppercase
branch carries its validity proof directly, so that its code point is
transparently `c.toNat + 32`). -/
def pyLowerChar (c : Char) : Char :=
  if h : 65 ≤ c.toNat ∧ c.toNat ≤ 90 then
    ⟨UInt32.ofNat (c.toNat + 32), by
      have hlt : c.toNat + 32 < UInt32.size := by
        have := h.2
        simp only [UInt32.size]
        omega
      simp only [UInt32.isValidChar, UInt32.toNat_ofNat_of_lt hlt, Nat.isValidChar]
      left
      have := h.2
      omega⟩
  else c

/-- `s.lower()` (ASCII model). -/
def pyLower (s : String) : String :=
  String.mk (s.data.map pyLowerChar)

/-- Single-character `s.replace(a, b)`. -/
def pyReplaceChar (a b : Char) (s : String) : String :=
  String.mk (s.data.map (fun c => if c = a then b else c))

/-- `s.startswith(c)` for a single-character head. -/
def pyStartsWith (s : String) (c : Char) : Bool :=
  match s.data with
  | c0 :: _ => c0 = c
  | [] => false

/-! ## Embedding of `src/schemas.py` -/

/-- `PeriodType` (src/schemas.py:22-26). -/
inductive PeriodType where
  | hour
  | day
  | month
deriving DecidableEq, Repr

/-- `ChartType` (src/schemas.py:14-19). -/
inductive ChartType where
  | hour_bar
  | day_pie
  | month_pie
  | day_month_combined
deriving DecidableEq, Repr

/-- Python exceptions surfaced by the embedded operations. `lineError n msg`
stands for the `ValueError` re-raised at src/schemas.py:187 with message
`Error parsing line n: msg`. -/
inductive PyErr where
  | fileNotFound (msg : String)
  | lineError (lineNum : Nat) (msg : String)
  | valueError (msg : String)
  | indexError
deriving DecidableEq, Repr

/-- `CommitCount.validate_period_range` (src/schemas.py:51-61). The pydantic
validator for `period` receives `values`, the dict of fields already
validated; it reads `period_type` from it. The argument below is that lookup
result. -/
def validate_period_range (v : Int) (period_type : Option PeriodType) : Except String Int :=
  match period_type with
  | some .hour => if ¬ (0 ≤ v ∧ v ≤ 23) then .error "Hour must be between 0 and 23" else .ok v
  | some .day => if ¬ (0 ≤ v ∧ v ≤ 6) then .error "Day must be between 0 and 6" else .ok v
  | some .month => if ¬ (1 ≤ v ∧ v ≤ 12) then .error "Month must be between 1 and 12" else .ok v
  | none => .ok v

/-- `CommitCount` (src/schemas.py:45-61). -/
structure CommitCount where
  period : Int
  count : Int
  period_type : PeriodType
deriving DecidableEq, Repr

/-- Pydantic construction of `CommitCount`. Fields are validated in
declaration order (`period`, `count`, `period_type`); when the `period`
validator runs, `period_type` has not been validated yet, so
`values.get('period_type')` is `None` — this is why the range check in
`validate_period_range` can never fire (the repository's own test
`test_commit_count_period_validation_invalid` is skipped for this reason).
The `count` field carries the pydantic constraint `ge=0`; violating it raises
a `ValidationError`, a subclass of `ValueError`. -/
def CommitCount.make (period count : Int) (period_type : PeriodType) : Except String CommitCount :=
  match validate_period_range period none with
  | .error e => .error e
  | .ok p =>
    if count < 0 then .error "count: ensure this value is greater than or equal to 0"
    else .ok { period := p, count := count, period_type := period_type }

/-- Period-kind inference from the file path (src/schemas.py:171-178):
case-sensitive substring tests, `hour` before `day` before `month`. -/
def kindOfPath (file_path : String) : Option PeriodType :=
  if strContains file_path "hour" then some .hour
  else if strContains file_path "day" then some .day
  else if strContains file_path "month" then some .month
  else none

/-- The `try` block body of src/schemas.py:163-184 for one stripped, non-blank
line: split, require two tokens, convert both with `int`, infer the period
kind from the path, and construct the `CommitCount`. Any `ValueError` message
produced here is wrapped by the caller into `PyErr.lineError`. -/
def lineRecord (file_path : String) (line_num : Nat) (line : String) : Except String CommitCount :=
  let parts := pysplit line
  if parts.length ≠ 2 then
    .error ("Invalid format at line " ++ toString line_num ++ ": expected period count")
  else
    match pyint (parts.getD 0 "") with
    | none => .error ("invalid literal for int with base 10: " ++ parts.getD 0 "")
    | some period =>
      match pyint (parts.getD 1 "") with
      | none => .error ("invalid literal for int with base 10: " ++ parts.getD 1 "")
      | some count =>
        match kindOfPath file_path with
        | some period_type => CommitCount.make period count period_type
        | none => .error "Cannot determine period type from filename"

/-- The line loop of `validate_commit_data_file` (src/schemas.py:156-189):
1-indexed enumeration, blank lines (after stripping) skipped, first error
aborts the whole call. -/
def validateAux (file_path : String) : Nat → List String → Except PyErr (List CommitCount)
  | _, [] => .ok []
  | n, l :: rest =>
    let line := pystrip l
    if line = "" then validateAux file_path (n + 1) rest
    else
      match lineRecord file_path n line with
      | .error e => .error (.lineError n e)
      | .ok cc =>
        match validateAux file_path (n + 1) rest with
        | .error e => .error e
        | .ok tl => .ok (cc :: tl)

/-- `validate_commit_data_file` (src/schemas.py:149-189). The file system is
modelled by passing the file contents as the list of its lines (`none` when
the file does not exist, matching the `os.path.exists` branch). -/
def validate_commit_data_file (file_path : String) (contents : Option (List String)) :
    Except PyErr (List CommitCount) :=
  match contents with
  | none => .error (.fileNotFound ("Data file not found: " ++ file_path))
  | some lines => validateAux file_path 1 lines

/-- `PlotConfig.validate_hex_color` (src/schemas.py:74-83): require a leading
`#` and total length 7, then require `int(v[1:], 16)` to succeed. -/
def validate_hex_color (v : String) : Except String String :=
  if ¬ pyStartsWith v '#' ∨ v.data.length ≠ 7 then
    .error "Color must be in hex format RRGGBB"
  else if pyIntBase16Ok (v.data.drop 1) then .ok v
  else .error "Invalid hex color format"

/-- `PlotConfig` (src/schemas.py:64-83), restricted to its two color fields;
the remaining fields (dpi, figsize, font sizes, grid alpha) carry independent
numeric range constraints that no verified claim touches. -/
structure PlotConfig where
  color_primary : String
  color_secondary : String
deriving DecidableEq, Repr

/-- Pydantic construction of `PlotConfig`: both color fields run
`validate_hex_color`; the first failure aborts construction. -/
def PlotConfig.make (color_primary color_secondary : String) : Except String PlotConfig :=
  match validate_hex_color color_primary with
  | .error e => .error e
  | .ok cp =>
    match validate_hex_color color_secondary with
    | .error e => .error e
    | .ok cs => .ok { color_primary := cp, color_secondary := cs }

/-- The `invalid_chars` list of `ChartConfig.validate_filename`
(src/schemas.py:97). -/
def invalid_chars : List Char := ['/', '\\', ':', '*', '?', '"', '<', '>', '|']

/-- `ChartConfig.validate_filename` (src/schemas.py:94-100). -/
def validate_filename (v : String) : Except String String :=
  if invalid_chars.any (fun c => v.data.contains c) then
    .error "Filename cannot contain reserved characters"
  else .ok v

/-- `ChartConfig` (src/schemas.py:86-100), without the `plot_config` field:
that field defaults to a fresh default `PlotConfig`, whose construction always
succeeds and is independent of the fields below. -/
structure ChartConfig where
  title : String
  output_filename : String
  chart_type : ChartType
  repository_name : Option String
deriving DecidableEq, Repr

/-- Pydantic construction of `ChartConfig`: `title` and `output_filename`
carry `min_length=1`, and `output_filename` additionally runs
`validate_filename`. -/
def ChartConfig.make (title output_filename : String) (chart_type : ChartType)
    (repository_name : Option String) : Except String ChartConfig :=
  if title.data.length < 1 then .error "title: ensure this value has at least 1 characters"
  else if output_filename.data.length < 1 then
    .error "output_filename: ensure this value has at least 1 characters"
  else
    match validate_filename output_filename with
    | .error e => .error e
    | .ok v =>
      .ok { title := title, output_filename := v, chart_type := chart_type,
            repository_name := repository_name }

/-- The `type_titles` dict of `create_default_chart_config`
(src/schemas.py:195-200). -/
def type_titles : ChartType → String
  | .hour_bar => "Commits by Hour"
  | .day_pie => "Commits by Day of Week"
  | .month_pie => "Commits by Month"
  | .day_month_combined => "Commits by Day and Month"

/-- The `type_filenames` dict of `create_default_chart_config`
(src/schemas.py:202-207). -/
def type_filenames : ChartType → String
  | .hour_bar => "commits_by_hour"
  | .day_pie => "commits_by_day"
  | .month_pie => "commits_by_month"
  | .day_month_combined => "commits_by_day_month"

/-- The filename suffix `repo_name.lower().replace(' ', '_').replace('-', '_')`
(src/schemas.py:214). -/
def repoSuffix (rn : String) : String :=
  pyReplaceChar '-' '_' (pyReplaceChar ' ' '_' (pyLower rn))

/-- `create_default_chart_config` (src/schemas.py:193-221). The `if repo_name:`
truthiness test holds exactly for a present, non-empty string. -/
def create_default_chart_config (chart_type : ChartType) (repo_name : Option String) :
    Except String ChartConfig :=
  let title := type_titles chart_type
  let filename := type_filenames chart_type
  match repo_name with
  | some rn =>
    if rn ≠ "" then
      ChartConfig.make (title ++ " - " ++ rn) (filename ++ "_" ++ repoSuffix rn)
        chart_type repo_name
    else ChartConfig.make title filename chart_type repo_name
  | none => ChartConfig.make title filename chart_type repo_name

/-! ## IEEE-754 binary64 model

`_generate_pie_colors` (src/enhanced_plot_scripts.py:304-334) computes
`i / (count - 1)`, `(secondary - primary) * ratio` and `primary + (...)` in
Python floats, i.e. IEEE-754 binary64: each operation returns the exact result
rounded to 53 significant bits, nearest-ties-to-even.  The model below
represents a float as an exact dyadic `mantissa * 2 ^ exponent` and rounds
exact fractions with integer arithmetic only.  Exponents are unbounded (no
overflow or subnormals), which agrees with binary64 on the normal range; every
value arising in the verified statements is 0 or has magnitude in
[2^-64, 2^9]. -/

/-- Fuel-driven binary logarithm; with `fuel = 64` this is the floor base-2
logarithm of any `n < 2 ^ 64` (and every number this development feeds it is
below `2 ^ 61`). -/
def nlog2 : Nat → Nat → Nat
  | 0, _ => 0
  | fuel + 1, n => if 2 ≤ n then nlog2 fuel (n / 2) + 1 else 0

/-- Floor base-2 logarithm (valid below `2 ^ 64`). -/
def plog2 (n : Nat) : Nat := nlog2 64 n

/-- A binary64 value: `m * 2 ^ e`, with `m = 0` or `|m|` in `[2^52, 2^53]`. -/
structure Dy where
  m : Int
  e : Int
deriving DecidableEq, Repr

/-- The exact rational value of a model float. -/
def Dy.val (x : Dy) : ℚ := (x.m : ℚ) * 2 ^ x.e

/-- Round the positive fraction `n / b` to 53 significant bits,
nearest-ties-to-even, returning mantissa and exponent.  `e0` is the floor
base-2 logarithm of `n / b` (the branch test `b * 2^la ≤ n * 2^lb` decides
between the two candidates given by the digit lengths of `n` and `b`);
the quotient and remainder of `n * 2 ^ (52 - e0)` by `b` then give the
mantissa and the rounding direction. -/
def roundPosAux (n b : Nat) : Nat × Int :=
  let la := plog2 n
  let lb := plog2 b
  let e0 : Int := if b * 2 ^ la ≤ n * 2 ^ lb then (la : Int) - lb else (la : Int) - lb - 1
  let shift : Int := 52 - e0
  let num := if 0 ≤ shift then n * 2 ^ shift.toNat else n
  let den := if 0 ≤ shift then b else b * 2 ^ (-shift).toNat
  let q := num / den
  let r2 := 2 * (num % den)
  let mant := if den < r2 then q + 1 else if r2 < den then q else if q % 2 = 0 then q else q + 1
  (mant, e0 - 52)

/-- Round the exact fraction `a / b` (with `b > 0`) to a binary64 value. -/
def roundRat (a : Int) (b : Nat) : Dy :=
  if a = 0 then ⟨0, 0⟩
  else
    let p := roundPosAux a.natAbs b
    if a < 0 then ⟨-(p.1 : Int), p.2⟩ else ⟨(p.1 : Int), p.2⟩

/-- Python true division `i / n1` of two machine integers (binary64 result). -/
def fdivNat (i n1 : Nat) : Dy := roundRat (i : Int) n1

/-- Python `d * x` for an int `d` and a float `x`: the exact product, rounded
once (`d` itself is exactly representable throughout this development). -/
def fmulInt (d : Int) (x : Dy) : Dy :=
  if 0 ≤ x.e then roundRat (d * x.m * 2 ^ x.e.toNat) 1
  else roundRat (d * x.m) (2 ^ (-x.e).toNat)

/-- Python `p + x` for an int `p` and a float `x`: the exact sum, rounded. -/
def faddInt (p : Int) (x : Dy) : Dy :=
  if 0 ≤ x.e then roundRat (p + x.m * 2 ^ x.e.toNat) 1
  else roundRat (p * 2 ^ (-x.e).toNat + x.m) (2 ^ (-x.e).toNat)

/-- Python `int(x)` on a float: truncation toward zero. -/
def pytrunc (x : Dy) : Int :=
  if 0 ≤ x.e then x.m * 2 ^ x.e.toNat
  else if 0 ≤ x.m then ((x.m.toNat / 2 ^ (-x.e).toNat : Nat) : Int)
  else -((x.m.natAbs / 2 ^ (-x.e).toNat : Nat) : Int)

/-! ## Embedding of `EnhancedPlotter` (src/enhanced_plot_scripts.py) -/

/-- Value of one hexadecimal digit character (the junk value 0 outside the
hex-digit range is never exercised: every statement that reaches this
function constrains the color string to strict `#RRGGBB` form, on which it
agrees with CPython `int(-, 16)`). -/
def hexDigitVal (c : Char) : Nat :=
  if c.isDigit then c.toNat - 48
  else if 'a' ≤ c && c ≤ 'f' then c.toNat - 87
  else if 'A' ≤ c && c ≤ 'F' then c.toNat - 55
  else 0

/-- `int(color[j:j+2], 16)`: the two-character slice starting at `j`. -/
def hexPairAt (s : String) (j : Nat) : Int :=
  ((16 * hexDigitVal (s.data.getD j '0') + hexDigitVal (s.data.getD (j + 1) '0') : Nat) : Int)

/-- `tuple(int(color[j:j+2], 16) for j in (1, 3, 5))`
(src/enhanced_plot_scripts.py:321-322). -/
def parseRGB (s : String) : Int × Int × Int :=
  (hexPairAt s 1, hexPairAt s 3, hexPairAt s 5)

/-- One channel of the gradient: `int(primary + (secondary - primary) * ratio)`
evaluated in binary64 (src/enhanced_plot_scripts.py:325-328). -/
def interpChannel (p s : Int) (frac : Dy) : Int :=
  pytrunc (faddInt p (fmulInt (s - p) frac))

/-- The digit characters of `f"{v:02x}"`. -/
def hexDigitChar (n : Nat) : Char :=
  if n < 10 then Char.ofNat (48 + n) else Char.ofNat (87 + n)

/-- `f"{v:02x}"` for `0 ≤ v ≤ 255`: two lowercase hex digits. -/
def hex2 (v : Int) : String :=
  String.mk [hexDigitChar (v.toNat / 16 % 16), hexDigitChar (v.toNat % 16)]

/-- One iteration of the gradient loop in `_generate_pie_colors`
(src/enhanced_plot_scripts.py:316-332): the color appended for index `i`. -/
def pieColor (base_color secondary_color : String) (count i : Nat) : String :=
  let frac : Dy := if 1 < count then fdivNat i (count - 1) else ⟨0, 0⟩
  let primary_rgb := parseRGB base_color
  let secondary_rgb := parseRGB secondary_color
  let r := interpChannel primary_rgb.1 secondary_rgb.1 frac
  let g := interpChannel primary_rgb.2.1 secondary_rgb.2.1 frac
  let b := interpChannel primary_rgb.2.2 secondary_rgb.2.2 frac
  "#" ++ hex2 r ++ hex2 g ++ hex2 b

/-- `EnhancedPlotter._generate_pie_colors`
(src/enhanced_plot_scripts.py:304-334). -/
def generate_pie_colors (base_color secondary_color : String) (count : Nat) : List String :=
  if count = 1 then [base_color]
  else if count = 2 then [base_color, secondary_color]
  else (List.range count).map (pieColor base_color secondary_color count)

/-- Python list item assignment `l[i] = v`: negative indices address from the
end; indices outside `[-len(l), len(l))` raise `IndexError`. -/
def pyListSet (l : List Int) (i : Int) (v : Int) : Except PyErr (List Int) :=
  if 0 ≤ i ∧ i < (l.length : Int) then .ok (l.set i.toNat v)
  else if -(l.length : Int) ≤ i ∧ i < 0 then .ok (l.set (i + l.length).toNat v)
  else .error .indexError

/-- The zero-fill loop `for cc in commit_data: counts[index(cc)] = cc.count`
over an accumulator list. -/
def fillAux (index : CommitCount → Int) (acc : List Int) :
    List CommitCount → Except PyErr (List Int)
  | [] => .ok acc
  | cc :: rest =>
    match pyListSet acc (index cc) cc.count with
    | .error e => .error e
    | .ok acc2 => fillAux index acc2 rest

/-- `day_counts` after the zero-fill loop of `create_day_pie_chart`
(src/enhanced_plot_scripts.py:112-114): slot `cc.period` gets `cc.count`. -/
def dayCountsOf (commit_data : List CommitCount) : Except PyErr (List Int) :=
  fillAux (fun cc => cc.period) (List.replicate 7 0) commit_data

/-- `month_counts` after the zero-fill loop of `create_month_pie_chart`
(src/enhanced_plot_scripts.py:171-173): slot `cc.period - 1` gets `cc.count`
(months are 1-indexed). -/
def monthCountsOf (commit_data : List CommitCount) : Except PyErr (List Int) :=
  fillAux (fun cc => cc.period - 1) (List.replicate 12 0) commit_data

/-- `day_names` (src/enhanced_plot_scripts.py:108-109). -/
def day_names : List String :=
  ["Sunday", "Monday", "Tuesday", "Wednesday", "Thursday", "Friday", "Saturday"]

/-- `month_names` (src/enhanced_plot_scripts.py:167-168). -/
def month_names : List String :=
  ["January", "February", "March", "April", "May", "June",
   "July", "August", "September", "October", "November", "December"]

/-- The filter loop `for i, count in enumerate(counts): if count > 0: append`
(src/enhanced_plot_scripts.py:117-122), producing the parallel
(label, count) pairs of the plotted slices. -/
def filterPositive (names : List String) (counts : List Int) : List (String × Int) :=
  (names.zip counts).filter (fun p => 0 < p.2)

/-- The data pipeline of `create_day_pie_chart`
(src/enhanced_plot_scripts.py:103-160): zero-fill the 7 day slots, filter to
positive counts, raise `ValueError` when nothing remains, otherwise build the
pie palette.  The returned triple carries the plotted labels, counts and
colors; the matplotlib rendering and file output consume them unchanged. -/
def create_day_pie_chart (color_primary color_secondary : String)
    (commit_data : List CommitCount) :
    Except PyErr (List String × List Int × List String) :=
  match dayCountsOf commit_data with
  | .error e => .error e
  | .ok day_counts =>
    let pairs := filterPositive day_names day_counts
    let filtered_days := pairs.map Prod.fst
    let filtered_counts := pairs.map Prod.snd
    if filtered_counts.isEmpty then .error (.valueError "No commit data found for any day")
    else
      .ok (filtered_days, filtered_counts,
        generate_pie_colors color_primary color_secondary filtered_counts.length)

/-- The data pipeline of `create_month_pie_chart`
(src/enhanced_plot_scripts.py:162-219). -/
def create_month_pie_chart (color_primary color_secondary : String)
    (commit_data : List CommitCount) :
    Except PyErr (List String × List Int × List String) :=
  match monthCountsOf commit_data with
  | .error e => .error e
  | .ok month_counts =>
    let pairs := filterPositive month_names month_counts
    let filtered_months := pairs.map Prod.fst
    let filtered_counts := pairs.map Prod.snd
    if filtered_counts.isEmpty then .error (.valueError "No commit data found for any month")
    else
      .ok (filtered_months, filtered_counts,
        generate_pie_colors color_primary color_secondary filtered_counts.length)

/-- `day_names` of the combined chart (src/enhanced_plot_scripts.py:230). -/
def day_names_short : List String := ["Sun", "Mon", "Tue", "Wed", "Thu", "Fri", "Sat"]

/-- `month_names` of the combined chart
(src/enhanced_plot_scripts.py:260-261). -/
def month_names_short : List String :=
  ["Jan", "Feb", "Mar", "Apr", "May", "Jun", "Jul", "Aug", "Sep", "Oct", "Nov", "Dec"]

/-- The data pipeline of `create_combined_day_month_chart`
(src/enhanced_plot_scripts.py:221-302): both category ranges are zero-filled
and filtered, but each pie (and its palette) is built only under an
`if filtered_counts:` guard — an empty side is silently skipped, the figure is
rendered and saved regardless, and no error is raised.  Each `Option` in the
result is the (labels, counts, colors) triple of one sub-pie, or `none` when
that side was skipped. -/
def create_combined_day_month_chart (color_primary color_secondary : String)
    (day_data month_data : List CommitCount) :
    Except PyErr (Option (List String × List Int × List String) ×
      Option (List String × List Int × List String)) :=
  match dayCountsOf day_data with
  | .error e => .error e
  | .ok day_counts =>
    match monthCountsOf month_data with
    | .error e => .error e
    | .ok month_counts =>
      let dpairs := filterPositive day_names_short day_counts
      let day_pie :=
        if ¬ (dpairs.map Prod.snd).isEmpty then
          some (dpairs.map Prod.fst, dpairs.map Prod.snd,
            generate_pie_colors color_primary color_secondary (dpairs.map Prod.snd).length)
        else none
      let mpairs := filterPositive month_names_short month_counts
      let month_pie :=
        if ¬ (mpairs.map Prod.snd).isEmpty then
          some (mpairs.map Prod.fst, mpairs.map Prod.snd,
            generate_pie_colors color_primary color_secondary (mpairs.map Prod.snd).length)
        else none
      .ok (day_pie, month_pie)

/-! ## Reference (spec-side) definitions

These follow the wording of the specification and the claims; the theorems
below compare the embedded source functions against them. -/

/-- Spec-side color shape: the character `#` followed by exactly six
hexadecimal digits. -/
def strictHexColor (s : String) : Bool :=
  match s.data with
  | '#' :: rest => rest.length == 6 && rest.all isHexDigitChar
  | _ => false

/-- Reference parse of one data line following the spec wording: strip the
line, split it on whitespace, require exactly two integer tokens. -/
def specParseLine (l : String) : Option (Int × Int) :=
  let parts := pysplit (pystrip l)
  if parts.length = 2 then
    match pyint (parts.getD 0 ""), pyint (parts.getD 1 "") with
    | some p, some c => some (p, c)
    | _, _ => none
  else none

/-- The valid period range of a period kind (spec section 3). -/
def periodInRange (k : PeriodType) (p : Int) : Bool :=
  match k with
  | .hour => 0 ≤ p && p ≤ 23
  | .day => 0 ≤ p && p ≤ 6
  | .month => 1 ≤ p && p ≤ 12

/-- A line that the spec deems well formed for kind `k` (or blank): two
integer tokens, period in range, count nonnegative. -/
def goodLine (k : PeriodType) (l : String) : Bool :=
  match specParseLine l with
  | some pc => periodInRange k pc.1 && decide (0 ≤ pc.2)
  | none => pystrip l == ""

/-- Tokens of a malformed line in the sense of the claims: wrong token count,
or a token `int` cannot parse. -/
def badTokens (l : String) : Bool :=
  (pysplit (pystrip l)).length != 2 ||
    (pysplit (pystrip l)).any (fun t => (pyint t).isNone)

/-- A line on which the validator does not abort: blank, or parsed into a
record (the line number only affects error messages, not success). -/
def lineOk (path l : String) : Bool :=
  pystrip l == "" || (lineRecord path 0 (pystrip l)).isOk

/-- The record sequence the spec promises for a file of well-formed lines of
kind `k`: one record per non-blank line, in order, carrying the parsed
integers verbatim. -/
def specRecords (k : PeriodType) (lines : List String) : List CommitCount :=
  lines.filterMap (fun l => (specParseLine l).map (fun pc => ⟨pc.1, pc.2, k⟩))

/-- The lowercase `#rrggbb` re-encoding of a color's three parsed channels
(what `_generate_pie_colors` emits for an interpolated value that equals the
channel exactly). -/
def encodeRGB (s : String) : String :=
  "#" ++ hex2 (parseRGB s).1 ++ hex2 (parseRGB s).2.1 ++ hex2 (parseRGB s).2.2

/-- Count carried by the last record of the sequence hitting period `p`
(0 when none does). -/
def lastPeriodCount (p : Int) (recs : List CommitCount) : Int :=
  match (recs.filter (fun r => r.period == p)).getLast? with
  | some r => r.count
  | none => 0

/-! ## Lemmas about the validator -/

theorem pysplit_empty : pysplit "" = [] := rfl

theorem lineRecord_empty (path : String) (n : Nat) :
    lineRecord path n "" =
      .error ("Invalid format at line " ++ toString n ++ ": expected period count") := rfl

/-- Constructing a `CommitCount` with a nonnegative count always succeeds:
the period validator is a no-op because `period_type` is absent from `values`
while `period` is validated. -/
theorem CommitCount.make_count_ok (p c : Int) (k : PeriodType) (hc : 0 ≤ c) :
    CommitCount.make p c k = .ok ⟨p, c, k⟩ := by
  show (if c < 0 then Except.error "count: ensure this value is greater than or equal to 0"
    else Except.ok (⟨p, c, k⟩ : CommitCount)) = Except.ok ⟨p, c, k⟩
  rw [if_neg (not_lt.2 hc)]

/-- A line whose reference parse succeeds (and whose count is allowed by the
pydantic `ge=0` bound) is turned into exactly that record; the period-range
validator never fires because it reads `period_type` before that field is
available. -/
theorem lineRecord_of_spec (path l : String) (n : Nat) (k : PeriodType) (p c : Int)
    (hk : kindOfPath path = some k) (hs : specParseLine l = some (p, c)) (hc : 0 ≤ c) :
    lineRecord path n (pystrip l) = .ok ⟨p, c, k⟩ := by
  unfold specParseLine at hs
  unfold lineRecord
  simp only at hs ⊢
  by_cases hlen : (pysplit (pystrip l)).length = 2
  · rw [if_pos hlen] at hs
    rw [if_neg (by omega : ¬ (pysplit (pystrip l)).length ≠ 2)]
    rcases h0 : pyint ((pysplit (pystrip l)).getD 0 "") with _ | p0 <;> rw [h0] at hs
    · simp at hs
    · rcases h1 : pyint ((pysplit (pystrip l)).getD 1 "") with _ | c0 <;> rw [h1] at hs
      · simp at hs
      · have hp : p0 = p := by
          have := congrArg (fun o => (o.getD (0, 0)).1) hs
          simpa using this
        have hcc : c0 = c := by
          have := congrArg (fun o => (o.getD (0, 0)).2) hs
          simpa using this
        rw [hk, hp, hcc]
        show CommitCount.make p c k = Except.ok ⟨p, c, k⟩
        exact CommitCount.make_count_ok p c k hc
  · rw [if_neg hlen] at hs
    simp at hs

/-- Under an undeterminable period kind every non-blank line aborts the call
(either before or at the kind inference). -/
theorem lineRecord_isErr_of_no_kind (path l' : String) (n : Nat)
    (hk : kindOfPath path = none) : ∃ msg, lineRecord path n l' = .error msg := by
  unfold lineRecord
  simp only
  by_cases hlen : (pysplit l').length ≠ 2
  · exact ⟨_, by rw [if_pos hlen]⟩
  · rw [if_neg hlen]
    rcases h0 : pyint ((pysplit l').getD 0 "") with _ | p0
    · exact ⟨_, rfl⟩
    · rcases h1 : pyint ((pysplit l').getD 1 "") with _ | c0
      · exact ⟨_, rfl⟩
      · rw [hk]
        exact ⟨_, rfl⟩

/-- A line with the wrong token count or an unparseable token aborts the call
regardless of the path. -/
theorem lineRecord_isErr_of_badTokens (path l : String) (n : Nat)
    (hb : badTokens l = true) : ∃ msg, lineRecord path n (pystrip l) = .error msg := by
  unfold badTokens at hb
  unfold lineRecord
  simp only [Bool.or_eq_true, bne_iff_ne, ne_eq, List.any_eq_true,
    Option.isNone_iff_eq_none] at hb
  simp only
  by_cases hlen : (pysplit (pystrip l)).length ≠ 2
  · exact ⟨_, by rw [if_pos hlen]⟩
  · rw [if_neg hlen]
    push_neg at hlen
    rcases h0 : pyint ((pysplit (pystrip l)).getD 0 "") with _ | p0
    · exact ⟨_, rfl⟩
    · rcases h1 : pyint ((pysplit (pystrip l)).getD 1 "") with _ | c0
      · exact ⟨_, rfl⟩
      · exfalso
        rcases hb with hbad | ⟨t, ht, hnone⟩
        · exact hbad hlen
        · rcases hsp : pysplit (pystrip l) with _ | ⟨a, rest⟩ <;> rw [hsp] at hlen
          · simp at hlen
          · rcases rest with _ | ⟨b, rest2⟩
            · simp at hlen
            · have hrest2 : rest2 = [] := by
                simp only [List.length_cons] at hlen
                exact List.length_eq_zero.1 (by omega)
              subst hrest2
              rw [hsp] at ht h0 h1
              simp only [List.getD, List.get?_cons_zero, List.get?_cons_succ,
                List.getElem?_cons_zero, List.getElem?_cons_succ, Option.getD_some] at h0 h1
              rcases List.mem_pair.1 ht with h | h <;> subst h
              · rw [hnone] at h0
                exact Option.noConfusion h0
              · rw [hnone] at h1
                exact Option.noConfusion h1

/-- Whether a line produces a record does not depend on the line number (only
error messages mention it). -/
theorem lineRecord_isOk_elim (path l : String) (m n : Nat)
    (h : (lineRecord path m l).isOk = true) : ∃ cc, lineRecord path n l = .ok cc := by
  unfold lineRecord at h ⊢
  simp only at h ⊢
  by_cases hlen : (pysplit l).length ≠ 2
  · rw [if_pos hlen] at h
    simp [Except.isOk, Except.toBool] at h
  · rw [if_neg hlen] at h ⊢
    rcases h0 : pyint ((pysplit l).getD 0 "") with _ | p0 <;> rw [h0] at h
    · simp [Except.isOk, Except.toBool] at h
    · rcases h1 : pyint ((pysplit l).getD 1 "") with _ | c0 <;> rw [h1] at h
      · simp [Except.isOk, Except.toBool] at h
      · rcases hk : kindOfPath path with _ | k <;> rw [hk] at h
        · simp [Except.isOk, Except.toBool] at h
        · rcases hr : CommitCount.make p0 c0 k with e | cc
          · have h2 : (Except.error e : Except String CommitCount).isOk = true := by
              rw [← hr]
              exact h
            simp [Except.isOk, Except.toBool] at h2
          · refine ⟨cc, ?_⟩
            show CommitCount.make p0 c0 k = Except.ok cc
            exact hr

/-- The validator loop on a file of blank lines returns the empty list. -/
theorem validateAux_all_blank (path : String) :
    ∀ (lines : List String) (n : Nat), (∀ l ∈ lines, pystrip l = "") →
      validateAux path n lines = .ok [] := by
  intro lines
  induction lines with
  | nil => intro n _; rfl
  | cons l rest ih =>
    intro n hall
    have hb := hall l (List.mem_cons_self l rest)
    unfold validateAux
    simp only
    rw [if_pos hb]
    exact ih (n + 1) fun x hx => hall x (List.mem_cons_of_mem l hx)

/-- The validator loop on well-formed lines of kind `k` returns the reference
records. -/
theorem validateAux_ok_of_good (path : String) (k : PeriodType)
    (hk : kindOfPath path = some k) :
    ∀ (lines : List String) (n : Nat), (∀ l ∈ lines, goodLine k l = true) →
      validateAux path n lines = .ok (specRecords k lines) := by
  intro lines
  induction lines with
  | nil => intro n _; rfl
  | cons l rest ih =>
    intro n hall
    have hl := hall l (List.mem_cons_self l rest)
    have hrest : ∀ x ∈ rest, goodLine k x = true :=
      fun x hx => hall x (List.mem_cons_of_mem l hx)
    unfold goodLine at hl
    rcases hsp : specParseLine l with _ | ⟨p, c⟩ <;> rw [hsp] at hl
    · have hb : pystrip l = "" := by simpa using hl
      unfold validateAux
      simp only
      rw [if_pos hb, ih (n + 1) hrest]
      unfold specRecords
      rw [List.filterMap_cons, hsp]
      rfl
    · simp only [Bool.and_eq_true, decide_eq_true_eq] at hl
      have hnb : ¬ pystrip l = "" := by
        intro hb
        have : specParseLine l = none := by
          unfold specParseLine
          rw [hb, pysplit_empty]
          simp
        rw [hsp] at this
        exact Option.some_ne_none _ this
      unfold validateAux
      simp only
      rw [if_neg hnb, lineRecord_of_spec path l n k p c hk hsp hl.2, ih (n + 1) hrest]
      unfold specRecords
      rw [List.filterMap_cons, hsp]
      rfl

/-- The validator loop fails on the first non-blank line when the path gives
no period kind. -/
theorem validateAux_err_nokind (path : String) (hk : kindOfPath path = none) :
    ∀ (lines : List String) (n : Nat), (∃ l ∈ lines, pystrip l ≠ "") →
      ∃ m msg, validateAux path n lines = .error (.lineError m msg) := by
  intro lines
  induction lines with
  | nil => intro n h; simp at h
  | cons l rest ih =>
    intro n hex
    by_cases hb : pystrip l = ""
    · obtain ⟨x, hx, hxn⟩ := hex
      have hxr : x ∈ rest := by
        rcases List.mem_cons.1 hx with h | h
        · exact absurd (h ▸ hb) hxn
        · exact h
      obtain ⟨m, msg, hm⟩ := ih (n + 1) ⟨x, hxr, hxn⟩
      refine ⟨m, msg, ?_⟩
      unfold validateAux
      simp only
      rw [if_pos hb]
      exact hm
    · obtain ⟨msg, hmsg⟩ := lineRecord_isErr_of_no_kind path (pystrip l) n hk
      refine ⟨n, msg, ?_⟩
      unfold validateAux
      simp only
      rw [if_neg hb, hmsg]

/-- The validator loop fails exactly at a malformed line when every earlier
line is blank or well formed. -/
theorem validateAux_err_at (path : String) :
    ∀ (pre : List String) (line : String) (post : List String) (n : Nat),
      (∀ l ∈ pre, lineOk path l = true) → pystrip line ≠ "" → badTokens line = true →
      ∃ msg, validateAux path n (pre ++ line :: post) = .error (.lineError (n + pre.length) msg) := by
  intro pre
  induction pre with
  | nil =>
    intro line post n _ hnb hb
    obtain ⟨msg, hmsg⟩ := lineRecord_isErr_of_badTokens path line n hb
    refine ⟨msg, ?_⟩
    simp only [List.nil_append, List.length_nil, Nat.add_zero]
    unfold validateAux
    simp only
    rw [if_neg hnb, hmsg]
  | cons l pre ih =>
    intro line post n hok hnb hb
    have hl := hok l (List.mem_cons_self l pre)
    have hpre : ∀ x ∈ pre, lineOk path x = true :=
      fun x hx => hok x (List.mem_cons_of_mem l hx)
    unfold lineOk at hl
    simp only [Bool.or_eq_true, beq_iff_eq] at hl
    rcases hl with hblank | hisok
    · obtain ⟨msg, hm⟩ := ih line post (n + 1) hpre hnb hb
      refine ⟨msg, ?_⟩
      simp only [List.cons_append]
      unfold validateAux
      simp only
      rw [if_pos hblank, hm]
      simp only [List.length_cons]
      congr 2
      omega
    · have hblank : ¬ pystrip l = "" := by
        intro hb'
        rw [hb'] at hisok
        simp [lineRecord_empty, Except.isOk, Except.toBool] at hisok
      obtain ⟨cc, hcc⟩ := lineRecord_isOk_elim path (pystrip l) 0 n hisok
      obtain ⟨msg, hm⟩ := ih line post (n + 1) hpre hnb hb
      refine ⟨msg, ?_⟩
      simp only [List.cons_append]
      unfold validateAux
      simp only
      rw [if_neg hblank, hcc, hm]
      simp only [List.length_cons]
      congr 2
      omega

/-! ## Claim C1 -/

/-- C1 (code bug): for an hour-named file, lines with period 24 and -1 are
ACCEPTED — `validate_commit_data_file` returns their records instead of
failing with a range error.  The pydantic validator `validate_period_range`
reads `period_type` from the already-validated-fields dict, which cannot
contain it while `period` (declared first) is being validated, so the range
check is dead code; the repository's own test for invalid periods is skipped
for exactly this reason. -/
theorem c1_hour_range_not_enforced :
    validate_commit_data_file "commit_counts_hour.txt" (some ["24 1", "-1 2"]) =
      .ok [⟨24, 1, .hour⟩, ⟨-1, 2, .hour⟩] ∧
    validate_period_range 24 none = .ok 24 := by
  exact ⟨by decide, rfl⟩

/-! ## Claim C4 -/

/-- C4 counterexample: a file whose path determines no period kind but which
has zero non-blank lines is accepted with the empty record list — the claim
demands a period-kind-undeterminable failure for every such file. -/
theorem c4_counterexample :
    kindOfPath "commit_counts.txt" = none ∧
    validate_commit_data_file "commit_counts.txt" (some ["", "  "]) = .ok [] := by
  exact ⟨by decide, by decide⟩

/-- C4 (amended): when the path contains none of `hour`, `day`, `month`, a
file with at least one non-blank line fails with a line-tagged error (the
kind-undeterminable message when the line parses, a parse error otherwise),
while a file with zero non-blank lines yields the empty record list. -/
theorem c4_kind_undeterminable :
    (∀ (path : String) (lines : List String), kindOfPath path = none →
       (∃ l ∈ lines, pystrip l ≠ "") →
       ∃ n msg, validate_commit_data_file path (some lines) = .error (.lineError n msg)) ∧
    (∀ (path : String) (lines : List String), (∀ l ∈ lines, pystrip l = "") →
       validate_commit_data_file path (some lines) = .ok []) := by
  constructor
  · intro path lines hk hex
    exact validateAux_err_nokind path hk lines 1 hex
  · intro path lines hall
    exact validateAux_all_blank path lines 1 hall

/-- C4 witness: the kind-undeterminable failure on a concrete non-blank file,
and the empty result on a concrete blank file. -/
theorem c4_kind_undeterminable_witness :
    (∃ n msg, validate_commit_data_file "commit_counts.txt" (some ["1 2"]) =
      .error (.lineError n msg)) ∧
    validate_commit_data_file "commit_counts.txt" (some [""]) = .ok [] :=
  ⟨c4_kind_undeterminable.1 "commit_counts.txt" ["1 2"] (by decide)
    ⟨"1 2", by decide, by decide⟩,
   c4_kind_undeterminable.2 "commit_counts.txt" [""] (by decide)⟩

/-! ## Claim C5 -/

/-- C5: a non-blank line with a wrong token count or an unparseable token
fails the whole call with an error naming that line's 1-indexed number
(provided the lines before it are blank or well formed, so that processing
reaches it); no record list is returned. -/
theorem c5_parse_error_names_line :
    ∀ (path : String) (pre : List String) (line : String) (post : List String),
      (∀ l ∈ pre, lineOk path l = true) → pystrip line ≠ "" → badTokens line = true →
      ∃ msg, validate_commit_data_file path (some (pre ++ line :: post)) =
        .error (.lineError (pre.length + 1) msg) := by
  intro path pre line post hok hnb hb
  obtain ⟨msg, hm⟩ := validateAux_err_at path pre line post 1 hok hnb hb
  refine ⟨msg, ?_⟩
  show validateAux path 1 (pre ++ line :: post) = _
  rw [hm]
  congr 2
  omega

/-- C5 witness: a 3-line hour file whose line 2 is malformed fails naming
line number 2. -/
theorem c5_parse_error_names_line_witness :
    ∃ msg, validate_commit_data_file "commit_counts_hour.txt"
      (some (["08 10"] ++ "this is not valid" :: ["10 12"])) =
      .error (.lineError 2 msg) :=
  c5_parse_error_names_line "commit_counts_hour.txt" ["08 10"] "this is not valid" ["10 12"]
    (by decide) (by decide) (by decide)

/-! ## Claim C6 -/

/-- C6 counterexample: the line `3 -1` in a day file meets the claim's
hypotheses — two parseable integer tokens with the period in the day range —
yet validation fails (the pydantic `ge=0` bound on `count` rejects it), so
the claim as stated is false. -/
theorem c6_counterexample :
    specParseLine "3 -1" = some (3, -1) ∧ periodInRange .day 3 = true ∧
    validate_commit_data_file "commit_counts_day.txt" (some ["3 -1"]) =
      .error (.lineError 1 "count: ensure this value is greater than or equal to 0") := by
  exact ⟨by decide, by decide, by decide⟩

/-- C6 (amended): for a determinable period kind, a file in which every
non-blank line splits into two parseable integers with the period in the
kind's range AND a nonnegative count validates to exactly one record per
non-blank line, in file order, with the parsed integers carried verbatim;
a file of blank lines yields the empty sequence. -/
theorem c6_wellformed_roundtrip :
    ∀ (path : String) (lines : List String) (k : PeriodType),
      kindOfPath path = some k → (∀ l ∈ lines, goodLine k l = true) →
      validate_commit_data_file path (some lines) = .ok (specRecords k lines) := by
  intro path lines k hk hall
  exact validateAux_ok_of_good path k hk lines 1 hall

/-- C6 witness: a concrete day file (with a blank line) round-trips to its
reference records. -/
theorem c6_wellformed_roundtrip_witness :
    validate_commit_data_file "commit_counts_day.txt" (some ["0 5", "", "6 2"]) =
      .ok (specRecords .day ["0 5", "", "6 2"]) :=
  c6_wellformed_roundtrip "commit_counts_day.txt" ["0 5", "", "6 2"] .day
    (by decide) (by decide)



/-! ## Lemmas about the hex-color validator -/

theorem dropWhile_all_false (p : Char → Bool) :
    ∀ l : List Char, (∀ c ∈ l, p c = false) → l.dropWhile p = l := by
  intro l
  induction l with
  | nil => intro _; rfl
  | cons c rest ih =>
    intro h
    rw [List.dropWhile_cons, h c (List.mem_cons_self c rest)]
    simp

theorem stripList_no_space (l : List Char) (h : ∀ c ∈ l, pyIsSpace c = false) :
    stripList l = l := by
  unfold stripList
  rw [dropWhile_all_false pyIsSpace l h,
    dropWhile_all_false pyIsSpace l.reverse (fun c hc => h c (List.mem_reverse.1 hc)),
    List.reverse_reverse]

theorem isHexDigitChar_not_space (c : Char) (h : isHexDigitChar c = true) :
    pyIsSpace c = false := by
  by_contra hs
  rw [Bool.not_eq_false] at hs
  unfold pyIsSpace at hs
  simp only [Bool.or_eq_true, decide_eq_true_eq] at hs
  rcases hs with ((((hs | hs) | hs) | hs) | hs) | hs <;> subst hs <;>
    revert h <;> decide

theorem isHexDigitChar_ne (c : Char) (h : isHexDigitChar c = true) (d : Char)
    (hd : isHexDigitChar d = false) : c ≠ d := by
  intro he
  subst he
  rw [h] at hd
  exact Bool.noConfusion hd

theorem hexDigitsAux_of_all :
    ∀ l : List Char, (∀ c ∈ l, isHexDigitChar c = true) → hexDigitsAux l = true := by
  intro l
  induction l with
  | nil => intro _; rfl
  | cons c rest ih =>
    intro h
    have hc := h c (List.mem_cons_self c rest)
    have hr : ∀ x ∈ rest, isHexDigitChar x = true :=
      fun x hx => h x (List.mem_cons_of_mem c hx)
    have hcu : c ≠ '_' := isHexDigitChar_ne c hc '_' (by decide)
    unfold hexDigitsAux
    split
    all_goals
      first
      | rfl
      | exact absurd rfl hcu
      | (rename_i heq
         injection heq with h1 h2
         first
         | exact absurd h1 hcu
         | (subst h1
            subst h2
            rw [hc, ih hr]
            rfl))

theorem hexBody_of_all (l : List Char) (hne : l ≠ [])
    (h : ∀ c ∈ l, isHexDigitChar c = true) : hexBody l = true := by
  rcases l with _ | ⟨c, rest⟩
  · exact absurd rfl hne
  · show (isHexDigitChar c && hexDigitsAux rest) = true
    rw [h c (List.mem_cons_self c rest),
      hexDigitsAux_of_all rest (fun x hx => h x (List.mem_cons_of_mem c hx))]
    rfl

theorem stripSign_no_sign (c0 : Char) (rest : List Char) (h1 : c0 ≠ '+') (h2 : c0 ≠ '-') :
    stripSign (c0 :: rest) = c0 :: rest := by
  unfold stripSign
  simp [h1, h2]

theorem afterBasePrefix_of_hex (l : List Char) (hne : l ≠ [])
    (h : ∀ c ∈ l, isHexDigitChar c = true) : afterBasePrefix l = true := by
  rcases l with _ | ⟨c0, _ | ⟨c1, rest2⟩⟩
  · exact absurd rfl hne
  · show hexBody [c0] = true
    exact hexBody_of_all [c0] (by simp) h
  · have hc1 := h c1 (List.mem_cons_of_mem c0 (List.mem_cons_self c1 rest2))
    have hx : (c0 = '0' && (c1 = 'x' || c1 = 'X')) = false := by
      have h1 : c1 ≠ 'x' := isHexDigitChar_ne c1 hc1 'x' (by decide)
      have h2 : c1 ≠ 'X' := isHexDigitChar_ne c1 hc1 'X' (by decide)
      simp [h1, h2]
    show (if (c0 = '0' && (c1 = 'x' || c1 = 'X')) = true then _ else hexBody (c0 :: c1 :: rest2)) = true
    rw [hx]
    simp only [Bool.false_eq_true, if_false]
    exact hexBody_of_all (c0 :: c1 :: rest2) (by simp) h

theorem pyIntBase16Ok_of_hex (l : List Char) (hne : l ≠ [])
    (h : ∀ c ∈ l, isHexDigitChar c = true) : pyIntBase16Ok l = true := by
  unfold pyIntBase16Ok
  rw [stripList_no_space l (fun c hc => isHexDigitChar_not_space c (h c hc))]
  rcases l with _ | ⟨c0, rest⟩
  · exact absurd rfl hne
  · have hc0 := h c0 (List.mem_cons_self c0 rest)
    rw [stripSign_no_sign c0 rest (isHexDigitChar_ne c0 hc0 '+' (by decide))
      (isHexDigitChar_ne c0 hc0 '-' (by decide))]
    exact afterBasePrefix_of_hex (c0 :: rest) (by simp) h

/-! ## Claim C3 -/

/-- C3 counterexample: `#+12345` is not `#` followed by six hex digits, yet
`PlotConfig` construction accepts it — `int(v[1:], 16)` also succeeds on
signed, whitespace-padded, `0x`-prefixed or underscored forms. -/
theorem c3_counterexample :
    PlotConfig.make "#+12345" "#2e4977" = .ok ⟨"#+12345", "#2e4977"⟩ ∧
    strictHexColor "#+12345" = false := by
  exact ⟨by decide, by decide⟩

/-- C3 (amended): the color validator accepts every strict `#RRGGBB` string
and rejects every string that does not start with `#` or whose length is not
7; but among length-7 `#`-strings it accepts exactly those whose tail
satisfies CPython `int(-, 16)`, which also admits forms such as `#+12345`
(sign), `# 12345` (whitespace), `#0x1234` (base prefix) and `#1_2345`
(underscore). -/
theorem c3_hex_color_validation :
    (∀ v : String, strictHexColor v = true → validate_hex_color v = .ok v) ∧
    validate_hex_color "#+12345" = .ok "#+12345" ∧
    (∀ v : String, v.data.length ≠ 7 →
      validate_hex_color v = .error "Color must be in hex format RRGGBB") := by
  refine ⟨?_, by decide, ?_⟩
  · intro v hv
    unfold strictHexColor at hv
    rcases hd : v.data with _ | ⟨c0, rest⟩ <;> rw [hd] at hv
    · exact Bool.noConfusion hv
    · split at hv
      · next heq =>
        injection heq with h0 h2
        subst h2
        simp only [Bool.and_eq_true, beq_iff_eq, List.all_eq_true] at hv
        obtain ⟨hlen, hall⟩ := hv
        unfold validate_hex_color
        have hstart : pyStartsWith v '#' = true := by
          unfold pyStartsWith
          rw [hd, h0]
          simp
        have hlen7 : v.data.length = 7 := by
          rw [hd]
          simp [hlen]
        rw [if_neg (by simp [hstart, hlen7])]
        have hdrop : v.data.drop 1 = rest := by rw [hd]; rfl
        rw [hdrop, pyIntBase16Ok_of_hex rest
          (by
            intro hnil
            rw [hnil] at hlen
            exact absurd hlen (by decide))
          (fun c hc => hall c hc)]
        rfl
      · next heq => exact Bool.noConfusion hv
  · intro v hlen
    unfold validate_hex_color
    rw [if_pos (Or.inr hlen)]

/-- C3 witness: a concrete strict hex color is accepted and a concrete
6-character string is rejected. -/
theorem c3_hex_color_validation_witness :
    validate_hex_color "#A1b2c3" = .ok "#A1b2c3" ∧
    validate_hex_color "#12345" = .error "Color must be in hex format RRGGBB" :=
  ⟨c3_hex_color_validation.1 "#A1b2c3" (by decide),
   c3_hex_color_validation.2.2 "#12345" (by decide)⟩

/-! ## Lemmas about default chart configuration -/

theorem toNat_pyLowerChar (c : Char) :
    (pyLowerChar c).toNat = if 65 ≤ c.toNat ∧ c.toNat ≤ 90 then c.toNat + 32 else c.toNat := by
  unfold pyLowerChar
  split
  case isTrue h =>
    have hlt : c.toNat + 32 < UInt32.size := by
      have := h.2
      simp only [UInt32.size]
      omega
    exact UInt32.toNat_ofNat_of_lt hlt
  case isFalse h => rfl

theorem pyLowerChar_mem_invalid (c : Char) (h : pyLowerChar c ∈ invalid_chars) :
    c ∈ invalid_chars := by
  by_cases hb : 65 ≤ c.toNat ∧ c.toNat ≤ 90
  · exfalso
    have ht : (pyLowerChar c).toNat = c.toNat + 32 := by
      rw [toNat_pyLowerChar, if_pos hb]
    have hb2 := hb.1
    have hb3 := hb.2
    unfold invalid_chars at h
    simp only [List.mem_cons, List.not_mem_nil, or_false] at h
    rcases h with h | h | h | h | h | h | h | h | h
    all_goals rw [h] at ht
    all_goals simp only [Char.reduceToNat] at ht
    all_goals omega
  · have ht : pyLowerChar c = c := by
      unfold pyLowerChar
      rw [dif_neg hb]
    rw [ht] at h
    exact h

theorem replaceChar_mem_invalid (a : Char) (c : Char)
    (hu : ('_' : Char) ∉ invalid_chars)
    (h : (if c = a then '_' else c) ∈ invalid_chars) : c ∈ invalid_chars := by
  by_cases hc : c = a
  · rw [if_pos hc] at h
    exact absurd h hu
  · rw [if_neg hc] at h
    exact h

theorem repoSuffix_chars (rn : String) (hr : ∀ c ∈ rn.data, c ∉ invalid_chars) :
    ∀ c ∈ (repoSuffix rn).data, c ∉ invalid_chars := by
  intro c hc
  unfold repoSuffix pyReplaceChar pyLower at hc
  simp only [List.map_map] at hc
  obtain ⟨c0, hc0, hceq⟩ := List.mem_map.1 hc
  intro hmem
  subst hceq
  simp only [Function.comp] at hmem
  have h1 := replaceChar_mem_invalid '-' _ (by decide) hmem
  have h2 := replaceChar_mem_invalid ' ' _ (by decide) h1
  exact hr c0 hc0 (pyLowerChar_mem_invalid c0 h2)

theorem validate_filename_ok (f : String) (h : ∀ c ∈ invalid_chars, ¬ f.data.contains c = true) :
    validate_filename f = .ok f := by
  unfold validate_filename
  have hany : invalid_chars.any (fun c => f.data.contains c) = false := by
    rw [List.any_eq_false]
    intro c hc
    exact h c hc
  rw [if_neg (by rw [hany]; exact Bool.false_ne_true)]

theorem ChartConfig.make_fields_ok (t f : String) (ct : ChartType) (r : Option String)
    (ht : 1 ≤ t.data.length) (hf : 1 ≤ f.data.length)
    (hvf : ∀ c ∈ invalid_chars, c ∉ f.data) :
    ChartConfig.make t f ct r = .ok ⟨t, f, ct, r⟩ := by
  unfold ChartConfig.make
  rw [if_neg (by omega), if_neg (by omega),
    validate_filename_ok f (fun c hc hcc => hvf c hc (List.elem_iff.1 hcc))]

/-! ## Claim C9 -/

/-- C9 counterexample: for the non-empty label `a/b`, no configuration with
the claimed title and filename stem is produced — construction fails on the
reserved character carried into the filename. -/
theorem c9_counterexample :
    create_default_chart_config .month_pie (some "a/b") =
      .error "Filename cannot contain reserved characters" := by
  decide

/-- C9 (amended): for every chart kind and non-empty label containing no
reserved filename character, the default configuration carries title
`default title - label` and filename stem `default stem _ transformed label`
(label lowercased, spaces and hyphens replaced by underscores); a label with
a reserved character fails construction instead.  In particular MONTH_PIE
with label `My-Repo` yields `Commits by Month - My-Repo` and
`commits_by_month_my_repo`. -/
theorem c9_default_config :
    (∀ (ct : ChartType) (rn : String), rn ≠ "" → (∀ c ∈ rn.data, c ∉ invalid_chars) →
       create_default_chart_config ct (some rn) =
         .ok ⟨type_titles ct ++ " - " ++ rn, type_filenames ct ++ "_" ++ repoSuffix rn,
              ct, some rn⟩) ∧
    create_default_chart_config .month_pie (some "My-Repo") =
      .ok ⟨"Commits by Month - My-Repo", "commits_by_month_my_repo", .month_pie,
           some "My-Repo"⟩ := by
  constructor
  · intro ct rn hne hclean
    unfold create_default_chart_config
    simp only
    rw [if_pos hne]
    apply ChartConfig.make_fields_ok
    · rw [String.data_append, String.data_append, List.length_append, List.length_append]
      cases ct <;> simp [type_titles] <;> omega
    · rw [String.data_append, String.data_append, List.length_append, List.length_append]
      cases ct <;> simp [type_filenames] <;> omega
    · intro c hc hmem
      rw [String.data_append, String.data_append] at hmem
      rcases List.mem_append.1 hmem with hm | hm
      · rcases List.mem_append.1 hm with hm2 | hm2
        · have hstem : ∀ x ∈ (type_filenames ct).data, x ∉ invalid_chars := by
            cases ct <;> decide
          exact hstem c hm2 hc
        · have hu : ∀ x ∈ ("_" : String).data, x ∉ invalid_chars := by decide
          exact hu c hm2 hc
      · exact repoSuffix_chars rn hclean c hm hc
  · decide

/-- C9 witness: the general part applied to HOUR_BAR with label `Big Repo`. -/
theorem c9_default_config_witness :
    create_default_chart_config .hour_bar (some "Big Repo") =
      .ok ⟨type_titles .hour_bar ++ " - " ++ "Big Repo",
           type_filenames .hour_bar ++ "_" ++ repoSuffix "Big Repo",
           .hour_bar, some "Big Repo"⟩ :=
  c9_default_config.1 .hour_bar "Big Repo" (by decide) (by decide)

/-! ## Lemmas about the zero-fill loops -/

/-- One invariant for the whole zero-fill loop: it succeeds when every index
is in bounds, preserves the length, and leaves slot `p` holding the count of
the last record writing to `p` (or the initial value). -/
theorem fillAux_char (index : CommitCount → Int) :
    ∀ (recs : List CommitCount) (acc : List Int),
      (∀ r ∈ recs, 0 ≤ index r ∧ index r < (acc.length : Int)) →
      ∃ arr, fillAux index acc recs = .ok arr ∧ arr.length = acc.length ∧
        ∀ p : Nat, arr[p]? =
          ((recs.filter (fun r => index r == (p : Int))).getLast?).elim acc[p]?
            (fun r => some r.count) := by
  intro recs
  induction recs with
  | nil =>
    intro acc _
    exact ⟨acc, rfl, rfl, fun p => rfl⟩
  | cons r rest ih =>
    intro acc h
    have hr := h r (List.mem_cons_self r rest)
    have hrest : ∀ x ∈ rest, 0 ≤ index x ∧ index x < (acc.length : Int) :=
      fun x hx => h x (List.mem_cons_of_mem r hx)
    have hset : pyListSet acc (index r) r.count = .ok (acc.set (index r).toNat r.count) := by
      unfold pyListSet
      rw [if_pos hr]
    have hlen2 : (acc.set (index r).toNat r.count).length = acc.length := by
      rw [List.length_set]
    obtain ⟨arr, harr, hlen, hchar⟩ := ih (acc.set (index r).toNat r.count)
      (fun x hx => by rw [hlen2]; exact hrest x hx)
    refine ⟨arr, ?_, by rw [hlen, hlen2], ?_⟩
    · unfold fillAux
      rw [hset]
      exact harr
    · intro p
      rw [hchar p]
      by_cases hrp : (index r == (p : Int)) = true
      · rw [List.filter_cons]
        simp only [hrp, if_true]
        have hpn : (index r).toNat = p := by
          have he : index r = (p : Int) := beq_iff_eq.1 hrp
          rw [he]
          exact Int.toNat_natCast p
        rcases hl : rest.filter (fun x => index x == (p : Int)) with _ | ⟨y, ys⟩
        · have hplen : p < acc.length := by
            have h2 := hr.2
            omega
          rw [show ([r] : List CommitCount).getLast? = some r from rfl]
          have hself : (acc.set (index r).toNat r.count)[p]? = some r.count := by
            rw [← hpn] at hplen ⊢
            exact List.getElem?_set_self hplen
          rw [hself]
          rfl
        · rw [List.getLast?_cons_cons]
          rcases hz : (y :: ys).getLast? with _ | z
          · rw [List.getLast?_eq_none_iff] at hz
            exact absurd hz (by simp)
          · rfl
      · rw [Bool.not_eq_true] at hrp
        rw [List.filter_cons]
        simp only [hrp, Bool.false_eq_true, if_false]
        have hne : (index r).toNat ≠ p := by
          intro he
          have : (index r == (p : Int)) = true := by
            rw [beq_iff_eq, ← he, Int.toNat_of_nonneg hr.1]
          rw [this] at hrp
          exact Bool.noConfusion hrp
        rw [List.getElem?_set_ne hne]

/-- After zero-filling from an all-nonpositive record sequence, every slot is
nonpositive. -/
theorem fill_all_nonpos (index : CommitCount → Int) (size : Nat)
    (recs : List CommitCount)
    (h : ∀ r ∈ recs, r.count ≤ 0 ∧ 0 ≤ index r ∧ index r < (size : Int)) :
    ∃ arr, fillAux index (List.replicate size 0) recs = .ok arr ∧
      arr.length = size ∧ ∀ x ∈ arr, x ≤ 0 := by
  obtain ⟨arr, harr, hlen, hchar⟩ := fillAux_char index recs (List.replicate size 0)
    (fun r hr => by rw [List.length_replicate]; exact (h r hr).2)
  refine ⟨arr, harr, by rw [hlen, List.length_replicate], ?_⟩
  intro x hx
  obtain ⟨p, hp⟩ := List.mem_iff_getElem?.1 hx
  rw [hchar p] at hp
  rcases hl : (recs.filter (fun r => index r == (p : Int))).getLast? with _ | y
  · rw [hl] at hp
    simp only [Option.elim_none] at hp
    rw [List.getElem?_replicate] at hp
    by_cases hps : p < size
    · rw [if_pos hps] at hp
      have h0 : (0 : Int) = x := by injection hp
      omega
    · rw [if_neg hps] at hp
      exact Option.noConfusion hp
  · rw [hl] at hp
    simp only [Option.elim_some] at hp
    have hy : y ∈ recs :=
      List.mem_of_mem_filter (List.mem_of_getLast?_eq_some hl)
    have hyx : y.count = x := by injection hp
    have := (h y hy).1
    omega

/-- Nonpositive counts survive no positive-count filter. -/
theorem filterPositive_nil (names : List String) (counts : List Int)
    (h : ∀ x ∈ counts, x ≤ 0) : filterPositive names counts = [] := by
  unfold filterPositive
  rw [List.filter_eq_nil_iff]
  intro pair hp
  have h2 := h pair.2 (List.of_mem_zip hp).2
  simp only [decide_eq_true_eq]
  omega

/-! ## Claim C7 -/

/-- C7 counterexample: with all-zero day and month data the combined chart
does NOT fail with a no-data error — it succeeds, silently skipping both
pies (the source guards each pie with an emptiness test and renders and
saves the figure regardless). -/
theorem c7_counterexample :
    create_combined_day_month_chart "#4e79a7" "#2e4977"
      [⟨0, 0, .day⟩] [⟨1, 0, .month⟩] = .ok (none, none) := by
  rfl

/-- C7 (amended): the day pie and the month pie fail with the no-data
`ValueError` when every category count is nonpositive after zero-filling, but
the combined day/month chart succeeds in that situation, skipping both pies
(and therefore requesting no palette) instead of raising. -/
theorem c7_no_data :
    (∀ (cp cs : String) (recs : List CommitCount),
       (∀ r ∈ recs, r.count ≤ 0 ∧ 0 ≤ r.period ∧ r.period < 7) →
       create_day_pie_chart cp cs recs =
         .error (.valueError "No commit data found for any day")) ∧
    (∀ (cp cs : String) (recs : List CommitCount),
       (∀ r ∈ recs, r.count ≤ 0 ∧ 1 ≤ r.period ∧ r.period ≤ 12) →
       create_month_pie_chart cp cs recs =
         .error (.valueError "No commit data found for any month")) ∧
    (∀ (cp cs : String) (dd md : List CommitCount),
       (∀ r ∈ dd, r.count ≤ 0 ∧ 0 ≤ r.period ∧ r.period < 7) →
       (∀ r ∈ md, r.count ≤ 0 ∧ 1 ≤ r.period ∧ r.period ≤ 12) →
       create_combined_day_month_chart cp cs dd md = .ok (none, none)) := by
  refine ⟨?_, ?_, ?_⟩
  · intro cp cs recs h
    obtain ⟨arr, harr, _, hpos⟩ := fill_all_nonpos (fun cc => cc.period) 7 recs
      (fun r hr => by
        obtain ⟨h1, h2, h3⟩ := h r hr
        exact ⟨h1, h2, by exact_mod_cast h3⟩)
    unfold create_day_pie_chart dayCountsOf
    rw [harr]
    simp only
    rw [filterPositive_nil day_names arr hpos]
    rfl
  · intro cp cs recs h
    obtain ⟨arr, harr, _, hpos⟩ := fill_all_nonpos (fun cc => cc.period - 1) 12 recs
      (fun r hr => by
        obtain ⟨h1, h2, h3⟩ := h r hr
        refine ⟨h1, by show (0 : Int) ≤ r.period - 1; omega, by
          show r.period - 1 < ((12 : Nat) : Int)
          have h12 : ((12 : Nat) : Int) = 12 := rfl
          omega⟩)
    unfold create_month_pie_chart monthCountsOf
    rw [harr]
    simp only
    rw [filterPositive_nil month_names arr hpos]
    rfl
  · intro cp cs dd md hd hm
    obtain ⟨arrd, harrd, _, hposd⟩ := fill_all_nonpos (fun cc => cc.period) 7 dd
      (fun r hr => by
        obtain ⟨h1, h2, h3⟩ := hd r hr
        exact ⟨h1, h2, by exact_mod_cast h3⟩)
    obtain ⟨arrm, harrm, _, hposm⟩ := fill_all_nonpos (fun cc => cc.period - 1) 12 md
      (fun r hr => by
        obtain ⟨h1, h2, h3⟩ := hm r hr
        refine ⟨h1, by show (0 : Int) ≤ r.period - 1; omega, by
          show r.period - 1 < ((12 : Nat) : Int)
          have h12 : ((12 : Nat) : Int) = 12 := rfl
          omega⟩)
    unfold create_combined_day_month_chart dayCountsOf monthCountsOf
    rw [harrd, harrm]
    simp only
    rw [filterPositive_nil day_names_short arrd hposd,
      filterPositive_nil month_names_short arrm hposm]
    rfl

/-- C7 witness: concrete all-nonpositive inputs for all three parts. -/
theorem c7_no_data_witness :
    create_day_pie_chart "#4e79a7" "#2e4977" [⟨3, 0, .day⟩] =
      .error (.valueError "No commit data found for any day") ∧
    create_month_pie_chart "#4e79a7" "#2e4977" [⟨12, 0, .month⟩] =
      .error (.valueError "No commit data found for any month") ∧
    create_combined_day_month_chart "#4e79a7" "#2e4977" [] [] = .ok (none, none) :=
  ⟨c7_no_data.1 "#4e79a7" "#2e4977" [⟨3, 0, .day⟩] (by decide),
   c7_no_data.2.1 "#4e79a7" "#2e4977" [⟨12, 0, .month⟩] (by decide),
   c7_no_data.2.2 "#4e79a7" "#2e4977" [] [] (by decide) (by decide)⟩

/-! ## Claim C10 -/

/-- C10: in the zero-fill loops of the day and month pie charts, later
records overwrite earlier ones: the final count of a category slot is the
count of the last record in the sequence carrying that period (the plotted
slices are the positive-count entries of this array). -/
theorem c10_last_record_wins :
    (∀ recs : List CommitCount, (∀ r ∈ recs, 0 ≤ r.period ∧ r.period < 7) →
       ∀ p : Nat, p < 7 →
       ∃ arr, dayCountsOf recs = .ok arr ∧
         arr[p]? = some (lastPeriodCount (p : Int) recs)) ∧
    (∀ recs : List CommitCount, (∀ r ∈ recs, 1 ≤ r.period ∧ r.period ≤ 12) →
       ∀ p : Nat, 1 ≤ p → p ≤ 12 →
       ∃ arr, monthCountsOf recs = .ok arr ∧
         arr[p - 1]? = some (lastPeriodCount (p : Int) recs)) := by
  constructor
  · intro recs h p hp
    obtain ⟨arr, harr, hlen, hchar⟩ := fillAux_char (fun cc => cc.period) recs
      (List.replicate 7 0)
      (fun r hr => by
        rw [List.length_replicate]
        obtain ⟨h1, h2⟩ := h r hr
        exact ⟨h1, by exact_mod_cast h2⟩)
    refine ⟨arr, harr, ?_⟩
    rw [hchar p]
    unfold lastPeriodCount
    rcases hl : (recs.filter (fun r => r.period == (p : Int))).getLast? with _ | y
    · rw [hl, List.getElem?_replicate, if_pos hp]
      rfl
    · rw [hl]
      rfl
  · intro recs h p hp1 hp2
    obtain ⟨arr, harr, hlen, hchar⟩ := fillAux_char (fun cc => cc.period - 1) recs
      (List.replicate 12 0)
      (fun r hr => by
        rw [List.length_replicate]
        obtain ⟨h1, h2⟩ := h r hr
        refine ⟨by show (0 : Int) ≤ r.period - 1; omega, by
          show r.period - 1 < ((12 : Nat) : Int)
          have h12 : ((12 : Nat) : Int) = 12 := rfl
          omega⟩)
    refine ⟨arr, harr, ?_⟩
    rw [hchar (p - 1)]
    have hfe : recs.filter (fun r => r.period - 1 == ((p - 1 : Nat) : Int)) =
        recs.filter (fun r => r.period == (p : Int)) := by
      apply List.filter_congr
      intro r _
      have hcast : ((p - 1 : Nat) : Int) = (p : Int) - 1 := by omega
      rw [hcast, Bool.eq_iff_iff, beq_iff_eq, beq_iff_eq]
      omega
    rw [hfe]
    unfold lastPeriodCount
    rcases hl : (recs.filter (fun r => r.period == (p : Int))).getLast? with _ | y
    · rw [hl, List.getElem?_replicate, if_pos (by omega : p - 1 < 12)]
      rfl
    · rw [hl]
      rfl

/-- C10 witness: two records with period 2 — the final slot carries the
second record's count (9), and the month analogue. -/
theorem c10_last_record_wins_witness :
    (∃ arr, dayCountsOf [⟨2, 5, .day⟩, ⟨2, 9, .day⟩] = .ok arr ∧
      arr[2]? = some (lastPeriodCount 2 [⟨2, 5, .day⟩, ⟨2, 9, .day⟩])) ∧
    (∃ arr, monthCountsOf [⟨3, 4, .month⟩, ⟨3, 7, .month⟩] = .ok arr ∧
      arr[3 - 1]? = some (lastPeriodCount 3 [⟨3, 4, .month⟩, ⟨3, 7, .month⟩])) :=
  ⟨c10_last_record_wins.1 [⟨2, 5, .day⟩, ⟨2, 9, .day⟩] (by decide) 2 (by decide),
   c10_last_record_wins.2 [⟨3, 4, .month⟩, ⟨3, 7, .month⟩] (by decide) 3 (by decide) (by decide)⟩

/-! ## Lemmas about the binary64 model -/

theorem nlog2_le : ∀ (fuel n k : Nat), n < 2 ^ (k + 1) → nlog2 fuel n ≤ k := by
  intro fuel
  induction fuel with
  | zero => intro n k _; exact Nat.zero_le k
  | succ fuel ih =>
    intro n k h
    unfold nlog2
    by_cases h2 : 2 ≤ n
    · rw [if_pos h2]
      rcases k with _ | k2
      · exfalso
        rw [pow_one] at h
        omega
      · have hdiv : n / 2 < 2 ^ (k2 + 1) := by
          rw [Nat.div_lt_iff_lt_mul (by omega : 0 < 2)]
          calc n < 2 ^ (k2 + 1 + 1) := h
          _ = 2 ^ (k2 + 1) * 2 := by ring
        have := ih (n / 2) k2 hdiv
        omega
    · rw [if_neg h2]
      exact Nat.zero_le k

theorem nlog2_lower : ∀ (fuel n : Nat), 0 < n → n < 2 ^ fuel →
    2 ^ nlog2 fuel n ≤ n := by
  intro fuel
  induction fuel with
  | zero => intro n h1 h2; omega
  | succ fuel ih =>
    intro n h1 h2
    unfold nlog2
    by_cases hn : 2 ≤ n
    · rw [if_pos hn]
      have hd1 : 0 < n / 2 := by omega
      have hd2 : n / 2 < 2 ^ fuel := by
        rw [Nat.div_lt_iff_lt_mul (by omega : 0 < 2)]
        calc n < 2 ^ (fuel + 1) := h2
        _ = 2 ^ fuel * 2 := by ring
      have := ih (n / 2) hd1 hd2
      calc 2 ^ (nlog2 fuel (n / 2) + 1) = 2 ^ nlog2 fuel (n / 2) * 2 := by ring
      _ ≤ n / 2 * 2 := by omega
      _ ≤ n := by omega
    · rw [if_neg hn]
      omega

theorem nlog2_upper : ∀ (fuel n : Nat), 0 < n → n < 2 ^ fuel →
    n < 2 ^ (nlog2 fuel n + 1) := by
  intro fuel
  induction fuel with
  | zero => intro n h1 h2; omega
  | succ fuel ih =>
    intro n h1 h2
    unfold nlog2
    by_cases hn : 2 ≤ n
    · rw [if_pos hn]
      have hd1 : 0 < n / 2 := by omega
      have hd2 : n / 2 < 2 ^ fuel := by
        rw [Nat.div_lt_iff_lt_mul (by omega : 0 < 2)]
        calc n < 2 ^ (fuel + 1) := h2
        _ = 2 ^ fuel * 2 := by ring
      have := ih (n / 2) hd1 hd2
      calc n ≤ n / 2 * 2 + 1 := by omega
      _ < 2 ^ (nlog2 fuel (n / 2) + 1) * 2 := by omega
      _ = 2 ^ (nlog2 fuel (n / 2) + 1 + 1) := by ring
    · rw [if_neg hn]
      have hone : n = 1 := by omega
      rw [hone]
      omega

theorem plog2_lower (n : Nat) (h1 : 0 < n) (h2 : n < 2 ^ 64) : 2 ^ plog2 n ≤ n :=
  nlog2_lower 64 n h1 h2

theorem plog2_upper (n : Nat) (h1 : 0 < n) (h2 : n < 2 ^ 64) : n < 2 ^ (plog2 n + 1) :=
  nlog2_upper 64 n h1 h2

/-- Rounding is exact on quotients `v * b / b` with a small integer value `v`:
the mantissa is `v` shifted into the 53-bit window and the exponent is the
matching negative power of two. -/
theorem roundPosAux_int_exact (v b : Nat) (hv1 : 1 ≤ v) (hv2 : v ≤ 255)
    (hb1 : 1 ≤ b) (hb2 : b ≤ 2 ^ 52) :
    ∃ t : Nat, t ≤ 52 ∧ roundPosAux (v * b) b = (v * 2 ^ t, -(t : Int)) := by
  have hn1 : 0 < v * b := Nat.mul_pos (by omega) (by omega)
  have hn64 : v * b < 2 ^ 64 := by
    calc v * b ≤ 255 * 2 ^ 52 := Nat.mul_le_mul hv2 hb2
    _ < 2 ^ 64 := by norm_num
  have hb64 : b < 2 ^ 64 := by
    calc b ≤ 2 ^ 52 := hb2
    _ < 2 ^ 64 := by norm_num
  have hla1 := plog2_lower (v * b) hn1 hn64
  have hla2 := plog2_upper (v * b) hn1 hn64
  have hlb1 := plog2_lower b (by omega) hb64
  have hlb2 := plog2_upper b (by omega) hb64
  have hv8 : v < 2 ^ 8 := by omega
  have hkey : ∃ e0n : Nat, e0n ≤ 8 ∧
      (if b * 2 ^ plog2 (v * b) ≤ v * b * 2 ^ plog2 b then
        (plog2 (v * b) : Int) - plog2 b else (plog2 (v * b) : Int) - plog2 b - 1) =
      (e0n : Int) := by
    have hvb : b ≤ v * b := Nat.le_mul_of_pos_left b (by omega)
    have hva : v * b ≤ 255 * b := Nat.mul_le_mul hv2 (le_refl b)
    have hup : plog2 (v * b) ≤ plog2 b + 8 := by
      have h2 : v * b < 256 * 2 ^ (plog2 b + 1) := by omega
      have h3 : 2 ^ plog2 (v * b) < 2 ^ (8 + (plog2 b + 1)) := by
        rw [pow_add, show (2 : Nat) ^ 8 = 256 from by norm_num]
        omega
      have := (Nat.pow_lt_pow_iff_right (by omega : 1 < 2)).1 h3
      omega
    have hle : plog2 b ≤ plog2 (v * b) := by
      have hz : 2 ^ plog2 b < 2 ^ (plog2 (v * b) + 1) := by omega
      have := (Nat.pow_lt_pow_iff_right (by omega : 1 < 2)).1 hz
      omega
    by_cases hcond : b * 2 ^ plog2 (v * b) ≤ v * b * 2 ^ plog2 b
    · refine ⟨plog2 (v * b) - plog2 b, by omega, ?_⟩
      rw [if_pos hcond]
      omega
    · push_neg at hcond
      have hlt : plog2 b < plog2 (v * b) := by
        have h2 : b * 2 ^ plog2 b ≤ v * b * 2 ^ plog2 b :=
          Nat.mul_le_mul hvb (le_refl _)
        have h3 : b * 2 ^ plog2 b < b * 2 ^ plog2 (v * b) := by omega
        have h4 : 2 ^ plog2 b < 2 ^ plog2 (v * b) :=
          Nat.lt_of_mul_lt_mul_left h3
        exact (Nat.pow_lt_pow_iff_right (by omega : 1 < 2)).1 h4
      refine ⟨plog2 (v * b) - plog2 b - 1, by omega, ?_⟩
      rw [if_neg (by omega)]
      omega
  obtain ⟨e0n, he0, heq⟩ := hkey
  refine ⟨52 - e0n, by omega, ?_⟩
  unfold roundPosAux
  simp only
  rw [heq]
  have hsh : (52 : Int) - (e0n : Int) = ((52 - e0n : Nat) : Int) := by omega
  have hps : (0 : Int) ≤ ((52 - e0n : Nat) : Int) := by omega
  rw [hsh, if_pos hps, if_pos hps]
  rw [Int.toNat_natCast]
  have hq : v * b * 2 ^ (52 - e0n) / b = v * 2 ^ (52 - e0n) := by
    rw [show v * b * 2 ^ (52 - e0n) = v * 2 ^ (52 - e0n) * b by ring]
    exact Nat.mul_div_cancel _ (by omega)
  have hm : v * b * 2 ^ (52 - e0n) % b = 0 := by
    rw [show v * b * 2 ^ (52 - e0n) = v * 2 ^ (52 - e0n) * b by ring]
    exact Nat.mul_mod_left _ _
  rw [hq, hm]
  rw [if_neg (by omega : ¬ b < 2 * 0), if_pos (by omega : 2 * 0 < b)]
  have he2 : (e0n : Int) - 52 = -((52 - e0n : Nat) : Int) := by omega
  rw [he2]

theorem roundRat_int_exact (z : Int) (b : Nat) (hz : z.natAbs ≤ 255)
    (hb1 : 1 ≤ b) (hb2 : b ≤ 2 ^ 52) :
    ∃ t : Nat, t ≤ 52 ∧ roundRat (z * b) b = ⟨z * 2 ^ t, -(t : Int)⟩ := by
  have hbpos : (0 : Int) < (b : Int) := by exact_mod_cast hb1
  rcases lt_trichotomy z 0 with hneg | hzero | hpos
  · obtain ⟨t, ht, hr⟩ := roundPosAux_int_exact z.natAbs b (by omega) hz hb1 hb2
    refine ⟨t, ht, ?_⟩
    have hzb : z * (b : Int) < 0 := mul_neg_of_neg_of_pos hneg hbpos
    unfold roundRat
    simp only
    rw [if_neg (by omega : ¬ z * (b : Int) = 0), if_pos hzb]
    have hna : (z * (b : Int)).natAbs = z.natAbs * b := by
      rw [Int.natAbs_mul, Int.natAbs_ofNat]
    rw [hna, hr]
    simp only [Dy.mk.injEq, and_true]
    push_cast
    rw [abs_of_neg hneg]
    ring
  · refine ⟨0, by omega, ?_⟩
    subst hzero
    norm_num [roundRat]
  · obtain ⟨t, ht, hr⟩ := roundPosAux_int_exact z.natAbs b (by omega) hz hb1 hb2
    refine ⟨t, ht, ?_⟩
    have hzb : (0 : Int) < z * (b : Int) := mul_pos hpos hbpos
    unfold roundRat
    simp only
    rw [if_neg (by omega : ¬ z * (b : Int) = 0), if_neg (by omega : ¬ z * (b : Int) < 0)]
    have hna : (z * (b : Int)).natAbs = z.natAbs * b := by
      rw [Int.natAbs_mul, Int.natAbs_ofNat]
    rw [hna, hr]
    simp only [Dy.mk.injEq, and_true]
    push_cast
    rw [abs_of_pos hpos]

theorem fmulInt_shift (d z : Int) (t : Nat) :
    fmulInt d ⟨z * 2 ^ t, -(t : Int)⟩ = roundRat (d * z * 2 ^ t) (2 ^ t) := by
  show (if (0 : Int) ≤ -(t : Int) then
      roundRat (d * (z * 2 ^ t) * 2 ^ (-(t : Int)).toNat) 1
    else roundRat (d * (z * 2 ^ t)) (2 ^ (- -(t : Int)).toNat)) =
    roundRat (d * z * 2 ^ t) (2 ^ t)
  by_cases ht : t = 0
  · subst ht
    norm_num
  · rw [if_neg (by omega)]
    rw [show (- -(t : Int)).toNat = t from by omega]
    rw [← mul_assoc]

theorem faddInt_shift (p z : Int) (t : Nat) :
    faddInt p ⟨z * 2 ^ t, -(t : Int)⟩ = roundRat ((p + z) * 2 ^ t) (2 ^ t) := by
  show (if (0 : Int) ≤ -(t : Int) then
      roundRat (p + z * 2 ^ t * 2 ^ (-(t : Int)).toNat) 1
    else roundRat (p * 2 ^ (- -(t : Int)).toNat + z * 2 ^ t) (2 ^ (- -(t : Int)).toNat)) =
    roundRat ((p + z) * 2 ^ t) (2 ^ t)
  by_cases ht : t = 0
  · subst ht
    norm_num
  · rw [if_neg (by omega)]
    rw [show (- -(t : Int)).toNat = t from by omega]
    rw [← add_mul]

theorem pytrunc_shift (z : Int) (t : Nat) (hz : 0 ≤ z) :
    pytrunc ⟨z * 2 ^ t, -(t : Int)⟩ = z := by
  show (if (0 : Int) ≤ -(t : Int) then z * 2 ^ t * 2 ^ (-(t : Int)).toNat
    else if (0 : Int) ≤ z * 2 ^ t then
      (((z * 2 ^ t).toNat / 2 ^ (- -(t : Int)).toNat : Nat) : Int)
    else -(((z * 2 ^ t).natAbs / 2 ^ (- -(t : Int)).toNat : Nat) : Int)) = z
  by_cases ht : t = 0
  · subst ht
    norm_num
  · rw [if_neg (by omega)]
    have hz2 : (0 : Int) ≤ z * 2 ^ t := mul_nonneg hz (by positivity)
    rw [if_pos hz2]
    rw [show (- -(t : Int)).toNat = t from by omega]
    have h2 : (z * 2 ^ t).toNat = z.toNat * 2 ^ t := by
      rw [show z * 2 ^ t = ((z.toNat * 2 ^ t : Nat) : Int) from by
        push_cast [Int.toNat_of_nonneg hz]
        ring]
      exact Int.toNat_natCast _
    rw [h2, Nat.mul_div_cancel _ (by positivity : 0 < 2 ^ t)]
    exact Int.toNat_of_nonneg hz

theorem fdivNat_zero (n1 : Nat) : fdivNat 0 n1 = ⟨0, 0⟩ := rfl

theorem roundPosAux_self (b : Nat) (hb : 0 < b) : roundPosAux b b = (2 ^ 52, -52) := by
  unfold roundPosAux
  simp only
  rw [if_pos (le_refl (b * 2 ^ plog2 b))]
  rw [show (plog2 b : Int) - plog2 b = 0 from by omega]
  rw [sub_zero]
  have h52 : (0 : Int) ≤ 52 := by norm_num
  rw [if_pos h52, if_pos h52]
  rw [show ((52 : Int)).toNat = 52 from rfl]
  rw [Nat.mul_div_cancel_left _ hb, Nat.mul_mod_right]
  rw [if_neg (by omega), if_pos (by omega)]
  norm_num

theorem fdivNat_self (n1 : Nat) (h : 0 < n1) : fdivNat n1 n1 = ⟨2 ^ 52, -52⟩ := by
  unfold fdivNat roundRat
  simp only
  rw [if_neg (by omega : ¬ ((n1 : Int)) = 0), if_neg (by omega : ¬ ((n1 : Int)) < 0)]
  rw [Int.natAbs_ofNat, roundPosAux_self n1 h]
  simp only [Dy.mk.injEq]
  norm_num

theorem hexDigitVal_le (c : Char) : hexDigitVal c ≤ 15 := by
  unfold hexDigitVal
  split_ifs with h1 h2 h3
  · unfold Char.isDigit at h1
    simp only [Bool.and_eq_true, decide_eq_true_eq] at h1
    have hb : c.toNat ≤ 57 := h1.2
    omega
  · simp only [Bool.and_eq_true, decide_eq_true_eq, Char.le_def] at h2
    have hb : c.toNat ≤ 102 := h2.2
    omega
  · simp only [Bool.and_eq_true, decide_eq_true_eq, Char.le_def] at h3
    have hb : c.toNat ≤ 70 := h3.2
    omega
  · omega

theorem hexPairAt_bounds (s : String) (j : Nat) :
    0 ≤ hexPairAt s j ∧ hexPairAt s j ≤ 255 := by
  unfold hexPairAt
  have h1 := hexDigitVal_le (s.data.getD j '0')
  have h2 := hexDigitVal_le (s.data.getD (j + 1) '0')
  omega

theorem interpChannel_zero (p s : Int) (hp0 : 0 ≤ p) (hp1 : p ≤ 255) :
    interpChannel p s ⟨0, 0⟩ = p := by
  unfold interpChannel
  have hmul : fmulInt (s - p) ⟨0, 0⟩ = ⟨0, 0⟩ := by
    show roundRat ((s - p) * (0 : Int) * 2 ^ ((0 : Int)).toNat) 1 = ⟨0, 0⟩
    norm_num [roundRat]
  rw [hmul]
  have hadd : faddInt p ⟨0, 0⟩ = roundRat p 1 := by
    show roundRat (p + (0 : Int) * 2 ^ ((0 : Int)).toNat) 1 = roundRat p 1
    norm_num
  rw [hadd]
  obtain ⟨t, ht, hr⟩ := roundRat_int_exact p 1 (by omega) (le_refl 1) (by norm_num)
  norm_num at hr
  rw [hr]
  exact pytrunc_shift p t hp0

theorem interpChannel_one (p s : Int) (n1 : Nat) (hn : 0 < n1)
    (hp0 : 0 ≤ p) (hp1 : p ≤ 255) (hs0 : 0 ≤ s) (hs1 : s ≤ 255) :
    interpChannel p s (fdivNat n1 n1) = s := by
  unfold interpChannel
  rw [fdivNat_self n1 hn]
  have hmul := fmulInt_shift (s - p) 1 52
  simp only [one_mul, mul_one, Nat.cast_ofNat] at hmul
  rw [hmul]
  norm_num
  obtain ⟨u, hu, hr⟩ := roundRat_int_exact (s - p) (2 ^ 52) (by omega) (by norm_num)
    (le_refl _)
  push_cast at hr
  rw [hr]
  rw [faddInt_shift p (s - p) u]
  rw [show p + (s - p) = s from by ring]
  obtain ⟨w, hw, hr2⟩ := roundRat_int_exact s (2 ^ u) (by omega)
    (Nat.one_le_two_pow) (Nat.pow_le_pow_right (by omega) hu)
  push_cast at hr2
  rw [hr2]
  exact pytrunc_shift s w hs0

theorem pieColor_zero (base second : String) (count : Nat) (h : 1 < count) :
    pieColor base second count 0 = encodeRGB base := by
  unfold pieColor
  simp only
  rw [if_pos h, fdivNat_zero]
  simp only [parseRGB]
  rw [interpChannel_zero _ _ (hexPairAt_bounds base 1).1 (hexPairAt_bounds base 1).2,
    interpChannel_zero _ _ (hexPairAt_bounds base 3).1 (hexPairAt_bounds base 3).2,
    interpChannel_zero _ _ (hexPairAt_bounds base 5).1 (hexPairAt_bounds base 5).2]
  rfl

theorem pieColor_last (base second : String) (count : Nat) (h : 2 ≤ count) :
    pieColor base second count (count - 1) = encodeRGB second := by
  unfold pieColor
  simp only
  rw [if_pos (by omega : 1 < count)]
  simp only [parseRGB]
  rw [interpChannel_one _ _ (count - 1) (by omega)
      (hexPairAt_bounds base 1).1 (hexPairAt_bounds base 1).2
      (hexPairAt_bounds second 1).1 (hexPairAt_bounds second 1).2,
    interpChannel_one _ _ (count - 1) (by omega)
      (hexPairAt_bounds base 3).1 (hexPairAt_bounds base 3).2
      (hexPairAt_bounds second 3).1 (hexPairAt_bounds second 3).2,
    interpChannel_one _ _ (count - 1) (by omega)
      (hexPairAt_bounds base 5).1 (hexPairAt_bounds base 5).2
      (hexPairAt_bounds second 5).1 (hexPairAt_bounds second 5).2]
  rfl

/-- C2 counterexample: in the 11-color gradient from `#000000` to `#5a5a5a`,
entry 7 is `#3e3e3e` (binary64 evaluation of `90 * (7 / 10)` truncates to 62),
while the exact floor formula of the claim gives `#3f3f3f` (the exact value is
63). -/
theorem c2_counterexample :
    (generate_pie_colors "#000000" "#5a5a5a" 11)[7]? = some "#3e3e3e" ∧
    "#" ++ hex2 ⌊((0 : ℚ) + ((90 : ℚ) - 0) * ((7 : ℚ) / (11 - 1)))⌋ ++
      hex2 ⌊((0 : ℚ) + ((90 : ℚ) - 0) * ((7 : ℚ) / (11 - 1)))⌋ ++
      hex2 ⌊((0 : ℚ) + ((90 : ℚ) - 0) * ((7 : ℚ) / (11 - 1)))⌋ = "#3f3f3f" ∧
    "#3e3e3e" ≠ "#3f3f3f" := by
  refine ⟨by decide, ?_, by decide⟩
  have h63 : ((0 : ℚ) + ((90 : ℚ) - 0) * ((7 : ℚ) / (11 - 1))) = ((63 : Int) : ℚ) := by
    norm_num
  rw [h63, Int.floor_intCast]
  decide

/-- C2 (amended): for `N ≥ 3` the palette has exactly `N` entries, its first
entry re-encodes the primary color and its last entry re-encodes the secondary
color; the concrete `N = 5` gradient from `#000000` to `#ffffff` is exactly
the claimed five-color list.  (The claimed per-entry exact floor formula fails
in general: the interpolation is evaluated in binary64, see the
counterexample.) -/
theorem c2_palette_endpoints (base second : String) (count : Nat)
    (hc : 3 ≤ count) (hb : strictHexColor base = true)
    (hs : strictHexColor second = true) :
    (generate_pie_colors base second count).length = count ∧
    (generate_pie_colors base second count).head? = some (encodeRGB base) ∧
    (generate_pie_colors base second count).getLast? = some (encodeRGB second) ∧
    generate_pie_colors "#000000" "#ffffff" 5 =
      ["#000000", "#3f3f3f", "#7f7f7f", "#bfbfbf", "#ffffff"] := by
  have h1 : ¬ count = 1 := by omega
  have h2 : ¬ count = 2 := by omega
  refine ⟨?_, ?_, ?_, by decide⟩
  · unfold generate_pie_colors
    rw [if_neg h1, if_neg h2]
    simp
  · unfold generate_pie_colors
    rw [if_neg h1, if_neg h2]
    have hhead : (List.range count).head? = some 0 := by
      rw [show count = (count - 1) + 1 from by omega, List.range_succ_eq_map]
      rfl
    rw [List.head?_map, hhead]
    rw [Option.map_some']
    rw [pieColor_zero base second count (by omega)]
  · unfold generate_pie_colors
    rw [if_neg h1, if_neg h2]
    have hrg : List.range count = List.range (count - 1) ++ [count - 1] := by
      conv_lhs => rw [show count = (count - 1) + 1 from by omega]
      rw [List.range_succ]
    rw [hrg, List.map_append]
    simp only [List.map_cons, List.map_nil]
    rw [List.getLast?_concat]
    rw [pieColor_last base second count (by omega)]

/-- C2 witness: the five-color gradient from `#000000` to `#ffffff`. -/
theorem c2_palette_endpoints_witness :
    (generate_pie_colors "#000000" "#ffffff" 5).length = 5 ∧
    (generate_pie_colors "#000000" "#ffffff" 5).head? = some (encodeRGB "#000000") ∧
    (generate_pie_colors "#000000" "#ffffff" 5).getLast? = some (encodeRGB "#ffffff") ∧
    generate_pie_colors "#000000" "#ffffff" 5 =
      ["#000000", "#3f3f3f", "#7f7f7f", "#bfbfbf", "#ffffff"] :=
  c2_palette_endpoints "#000000" "#ffffff" 5 (by omega) (by decide) (by decide)

/-- C8: a palette of size 1 is exactly the primary color, and a palette of
size 2 is exactly the primary and secondary colors, unchanged
(src/enhanced_plot_scripts.py:309-312). -/
theorem c8_small_palettes (primary secondary : String) :
    generate_pie_colors primary secondary 1 = [primary] ∧
    generate_pie_colors primary secondary 2 = [primary, secondary] :=
  ⟨rfl, rfl⟩

end RepoViz
